import Mathlib

/-!
# Verification of the low-contrast LSB steganography core

Shallow embedding of `src/steg.c` (functions `compute_luminance`,
`compute_luminance_map`, `find_low_contrast_positions`, `embed_bits`,
`extract_bits`, `steg_encode_message`, `steg_decode_message`) together with
theorems settling the behavioural claims about it.

Modelling conventions:
* bytes are `Nat` values (the code only ever stores values `< 256`, and the
  LSB manipulations are faithfully rendered with `/` and `%`);
* the C `double` luminance arithmetic is rendered in exact arithmetic over
  `ℚ`; the comparison `sqrt variance < t` of the C code is rendered as
  `0 < t ∧ variance < t * t`, which is equivalent for `variance ≥ 0` since
  `sqrt` is monotone and nonnegative;
* a `NULL` buffer is rendered as the empty list, out-parameters become
  return values, and fallible functions return `Option` (or the C `int`
  return code where the caller distinguishes codes).
-/

/-- The in-memory image of `bmp.h`: logical width and height (height may be
negative, meaning top-down row order), row stride in bytes, and the pixel
byte buffer laid out `B,G,R` per pixel at `row * stride + col * 3`. -/
structure BmpImage where
  width : Int
  height : Int
  stride : Nat
  data : List Nat
deriving Repr, DecidableEq

/-- `abs_height` as the C code computes it: `height > 0 ? height : -height`. -/
def absHeight (img : BmpImage) : Int :=
  if img.height > 0 then img.height else -img.height

/-- Read the byte at a given offset of the pixel buffer (`img->data[off]`). -/
def byteAt (img : BmpImage) (off : Nat) : Nat :=
  img.data.getD off 0

/-- `compute_luminance`: the ITU-R BT.601 luma transform
`0.299 r + 0.587 g + 0.114 b`, in exact rational arithmetic. -/
def compute_luminance (r g b : Nat) : ℚ :=
  (299 : ℚ) / 1000 * r + (587 : ℚ) / 1000 * g + (114 : ℚ) / 1000 * b

/-- Luminance of the pixel at `(row, col)`: the three channel bytes are read
at `row * stride + col * 3` in `B,G,R` order and their least significant bit
is cleared (`x & 0xFE`, i.e. `x / 2 * 2`) before the luma transform. -/
def lumAt (img : BmpImage) (row col : Nat) : ℚ :=
  let offset := row * img.stride + col * 3
  let b := byteAt img offset
  let g := byteAt img (offset + 1)
  let r := byteAt img (offset + 2)
  compute_luminance (r / 2 * 2) (g / 2 * 2) (b / 2 * 2)

/-- `compute_luminance_map`: fails on an invalid image
(`data == NULL || width <= 0 || height == 0`), otherwise returns the array
`lum` with `lum[row * width + col] = lumAt row col`. -/
def compute_luminance_map (img : BmpImage) : Option (List ℚ) :=
  if img.data = [] ∨ img.width ≤ 0 ∨ img.height = 0 then none
  else
    let w := img.width.toNat
    let ah := (absHeight img).toNat
    some ((List.range (w * ah)).map fun i => lumAt img (i / w) (i % w))

/-- Exact-arithmetic rendering of the C test `sqrt v < t` for a nonnegative
variance `v`: equivalent to `0 < t ∧ v < t * t`. -/
def sdLt (v t : ℚ) : Bool :=
  decide (0 < t) && decide (v < t * t)

/-- `find_low_contrast_positions`: errors (`none`) on a `NULL` buffer,
non-positive block size or non-positive dimensions; returns the ordered list
of pixel indices of all pixels of every window whose luminance standard
deviation is below the threshold, windows visited in row-major order of
their top-left corner, pixels appended in row-major order within each
window.  The per-window statistics mirror the C loops: a running
`(sum, n)` accumulator, `mean = sum / n`, then a running sum of squared
deviations and `variance = sq_sum / n`. -/
def find_low_contrast_positions (img : BmpImage) (block_size : Int) (t : ℚ) :
    Option (List Nat) :=
  if img.data = [] then none
  else if block_size ≤ 0 then none
  else
    let w := img.width
    let ah := absHeight img
    if w ≤ 0 ∨ ah ≤ 0 then none
    else
      match compute_luminance_map img with
      | none => none
      | some lum =>
        let wn := w.toNat
        let k := block_size.toNat
        let maxRow := ah - block_size + 1
        let maxCol := w - block_size + 1
        if maxRow < 0 ∨ maxCol < 0 then some []
        else some
          ((List.range maxRow.toNat).flatMap fun br =>
            (List.range maxCol.toNat).flatMap fun bc =>
              let s := (List.range k).foldl (fun acc r =>
                  (List.range k).foldl (fun acc2 c =>
                      (acc2.1 + lum.getD ((br + r) * wn + (bc + c)) 0,
                       acc2.2 + 1))
                    acc)
                ((0 : ℚ), (0 : Nat))
              if s.2 = 0 then []
              else
                let mean := s.1 / (s.2 : ℚ)
                let sq := (List.range k).foldl (fun acc r =>
                    (List.range k).foldl (fun acc2 c =>
                        acc2 +
                          (lum.getD ((br + r) * wn + (bc + c)) 0 - mean) *
                          (lum.getD ((br + r) * wn + (bc + c)) 0 - mean))
                      acc)
                  (0 : ℚ)
                let variance := sq / (s.2 : ℚ)
                if sdLt variance t then
                  (List.range k).flatMap fun r =>
                    (List.range k).map fun c => (br + r) * wn + (bc + c)
                else [])

/-- Byte offset of the start (blue channel) of pixel `p` in the buffer:
`(p / width) * stride + (p % width) * 3`. -/
def pixelBase (img : BmpImage) (p : Nat) : Nat :=
  p / img.width.toNat * img.stride + p % img.width.toNat * 3

/-- One LSB write of `embed_bits`: `value &= ~1; value |= (bit & 1)`. -/
def writeBit (data : List Nat) (off bit : Nat) : List Nat :=
  data.set off (data.getD off 0 / 2 * 2 + bit % 2)

/-- The loop of `embed_bits`: walk the position list, writing up to three
bits per pixel into the channel bytes in `R,G,B` order (buffer offsets
`base+2`, `base+1`, `base+0`), stopping as soon as the bitstream runs out. -/
def embedLoop (w stride : Nat) : List Nat → List Nat → List Nat → List Nat
  | [], _, data => data
  | _, [], data => data
  | p :: ps, b2 :: rest, data =>
    let base := p / w * stride + p % w * 3
    let d1 := writeBit data (base + 2) b2
    match rest with
    | [] => d1
    | b1 :: rest2 =>
      let d2 := writeBit d1 (base + 1) b1
      match rest2 with
      | [] => d2
      | b0 :: rest3 => embedLoop w stride ps rest3 (writeBit d2 (base + 0) b0)

/-- `embed_bits`: in-place LSB embedding of a bitstream along the position
list (the capacity precondition is the caller's duty; the model simply stops
when either list is exhausted, like the C loop before its final assert). -/
def embed_bits (img : BmpImage) (positions bits : List Nat) : BmpImage :=
  { img with data := embedLoop img.width.toNat img.stride positions bits img.data }

/-- The three LSBs of pixel `p`, in the `R,G,B` read order of
`extract_bits`. -/
def pixelBits (img : BmpImage) (p : Nat) : List Nat :=
  let base := pixelBase img p
  [byteAt img (base + 2) % 2, byteAt img (base + 1) % 2, byteAt img (base + 0) % 2]

/-- `extract_bits`: read LSBs along the position list (three per pixel, in
`R,G,B` order) until `total_bits` bits are collected; error (`none`) when
the positions are exhausted first. -/
def extract_bits (img : BmpImage) (positions : List Nat) (total_bits : Nat) :
    Option (List Nat) :=
  let all := positions.flatMap fun p => pixelBits img p
  if all.length < total_bits then none else some (all.take total_bits)

/-- MSB-first bit decomposition of one byte (`bit_pos` from 7 down to 0). -/
def byteToBits (b : Nat) : List Nat :=
  [b / 128 % 2, b / 64 % 2, b / 32 % 2, b / 16 % 2,
   b / 8 % 2, b / 4 % 2, b / 2 % 2, b % 2]

/-- Pack a byte sequence into a bitstream, MSB-first per byte. -/
def bytesToBits (bs : List Nat) : List Nat :=
  bs.flatMap byteToBits

/-- Rebuild one byte from bits consumed MSB-first
(`b |= bit << bit_pos`, `bit_pos` from 7 down to 0). -/
def bitsToByte (bits : List Nat) : Nat :=
  bits.foldl (fun acc b => acc * 2 + b % 2) 0

/-- Unpack a bitstream into bytes, eight bits at a time, MSB-first. -/
def bitsToBytes : List Nat → List Nat
  | b7 :: b6 :: b5 :: b4 :: b3 :: b2 :: b1 :: b0 :: rest =>
    bitsToByte [b7, b6, b5, b4, b3, b2, b1, b0] :: bitsToBytes rest
  | _ => []

/-- The 4-byte little-endian length header
(`len32 = (uint32_t)message_len`, bytes `len32 >> 0,8,16,24 & 0xFF`). -/
def headerBytes (len : Nat) : List Nat :=
  let l := len % 2 ^ 32
  [l % 256, l / 2 ^ 8 % 256, l / 2 ^ 16 % 256, l / 2 ^ 24 % 256]

/-- `steg_encode_message`.  The message pointer is `Option`al (`none` is the
`NULL` pointer) and the length is passed separately, as in C.  Returns the C
return code (`0` success, `1` generic error, `-1` capacity insufficient)
together with the resulting image (unchanged on every failure path). -/
def steg_encode_message (img : BmpImage) (message : Option (List Nat))
    (message_len : Nat) (block_size : Int) (t : ℚ) : Int × BmpImage :=
  if img.data = [] then (1, img)
  else if message = none ∧ 0 < message_len then (1, img)
  else
    match find_low_contrast_positions img block_size t with
    | none => (1, img)
    | some positions =>
      let capacity_bits := positions.length * 3
      let required_bits := (4 + message_len) * 8
      if capacity_bits < required_bits then (-1, img)
      else
        let msgBytes := (List.range message_len).map fun i =>
          (message.getD []).getD i 0
        let bitstream := bytesToBits (headerBytes message_len ++ msgBytes)
        (0, embed_bits img positions bitstream)

/-- `steg_decode_message`: re-derive the position list, check the 32-bit
header capacity, extract and decode the little-endian length, re-check
capacity against it, extract header+payload bits afresh and unpack the
payload.  `none` is any nonzero return code. -/
def steg_decode_message (img : BmpImage) (block_size : Int) (t : ℚ) :
    Option (List Nat) :=
  if img.data = [] then none
  else
    match find_low_contrast_positions img block_size t with
    | none => none
    | some positions =>
      let capacity_bits := positions.length * 3
      if capacity_bits < 32 then none
      else
        match extract_bits img positions 32 with
        | none => none
        | some header_bits =>
          let hb := bitsToBytes header_bits
          let len32 := hb.getD 0 0 + hb.getD 1 0 * 2 ^ 8 +
            hb.getD 2 0 * 2 ^ 16 + hb.getD 3 0 * 2 ^ 24
          let required_bits := (4 + len32) * 8
          if capacity_bits < required_bits then none
          else
            match extract_bits img positions required_bits with
            | none => none
            | some all_bits => some (bitsToBytes (all_bits.drop 32))

/-! ## The Contrast Selector as the spec words it (for the refinement claim) -/

/-- Population variance of a list of values, as §4.2 of the spec words it:
mean, then sum of squared deviations divided by `n` (not `n - 1`). -/
def popVariance (xs : List ℚ) : ℚ :=
  let mean := xs.sum / (xs.length : ℚ)
  ((xs.map fun x => (x - mean) ^ 2).sum) / (xs.length : ℚ)

/-- The pixel indices of the `k×k` window with top-left corner `(br, bc)`,
in row-major order within the window. -/
def specWindow (w k br bc : Nat) : List Nat :=
  (List.range k).flatMap fun r =>
    (List.range k).map fun c => (br + r) * w + (bc + c)

/-- Modelled from the spec's §4.2 wording of the Contrast Selector: if the
image is smaller than the window in either dimension the Position List is
empty; otherwise slide the window over every valid top-left offset in
row-major order and append every pixel of each window whose population
standard deviation of luminance is strictly below the threshold. -/
def specSelector (img : BmpImage) (k : Nat) (t : ℚ) : List Nat :=
  let w := img.width.toNat
  let ah := (absHeight img).toNat
  if w < k ∨ ah < k then []
  else
    (List.range (ah - k + 1)).flatMap fun br =>
      (List.range (w - k + 1)).flatMap fun bc =>
        let lums := (specWindow w k br bc).map fun i => lumAt img (i / w) (i % w)
        if sdLt (popVariance lums) t then specWindow w k br bc else []

/-! ## Concrete images used by witnesses and counterexamples -/

/-- A `w × h` image filled with one uniform color `(r, g, b)`, stride
`w * 3` (no padding needed when `3 w` is a multiple of 4, as for `w = 4`
and `w = 16`). -/
def uniformImg (w h : Nat) (r g b : Nat) : BmpImage :=
  { width := w, height := h, stride := w * 3,
    data := (List.range (w * h)).flatMap fun _ => [b, g, r] }

/-! ## Concrete fixtures for witnesses and counterexamples -/

/-- The 4×4 uniform gray image of the repository test `TooLargeMessageFails`
(and the spec's Scenario B). -/
def u4 : BmpImage := uniformImg 4 4 50 50 50

/-- An 8-byte message used to exhibit the duplicate-position round-trip bug. -/
def msg8 : List Nat := [1, 2, 3, 4, 5, 6, 7, 8]

/-- The Position List `find_low_contrast_positions` produces on `u4` with
window size 2: every pixel of each of the nine overlapping 2×2 windows. -/
def u4Positions : List Nat :=
  [0, 1, 4, 5, 1, 2, 5, 6, 2, 3, 6, 7, 4, 5, 8, 9, 5, 6, 9, 10,
   6, 7, 10, 11, 8, 9, 12, 13, 9, 10, 13, 14, 10, 11, 14, 15]

/-- A 1×2 image whose stride (4) exceeds `width * 3`, so offset 3 and 7 are
padding bytes. -/
def padImg : BmpImage :=
  { width := 1, height := 2, stride := 4, data := [10, 20, 30, 40, 50, 60, 70, 80] }

/-! ## Helper lemmas about the embedder -/

lemma writeBit_length (data : List Nat) (off bit : Nat) :
    (writeBit data off bit).length = data.length := by
  simp [writeBit]

lemma writeBit_getD_ne (data : List Nat) (off bit o : Nat) (h : o ≠ off) :
    (writeBit data off bit).getD o 0 = data.getD o 0 := by
  simp [writeBit, List.getD_eq_getElem?_getD, List.getElem?_set_ne (Ne.symm h)]

lemma writeBit_getD_div2 (data : List Nat) (off bit o : Nat) :
    (writeBit data off bit).getD o 0 / 2 = data.getD o 0 / 2 := by
  by_cases h : o = off
  · subst h
    by_cases hl : o < data.length
    · simp only [writeBit, List.getD_eq_getElem?_getD, List.getElem?_set_self hl,
        Option.getD_some]
      omega
    · rw [writeBit, List.set_eq_of_length_le (by omega)]
  · rw [writeBit_getD_ne _ _ _ _ h]

lemma embedLoop_length (w s : Nat) (ps : List Nat) :
    ∀ (bits data : List Nat), (embedLoop w s ps bits data).length = data.length := by
  induction ps with
  | nil => intro bits data; cases bits <;> rfl
  | cons p ps ih =>
    intro bits data
    match bits with
    | [] => rfl
    | [b2] => simp [embedLoop, writeBit_length]
    | [b2, b1] => simp [embedLoop, writeBit_length]
    | b2 :: b1 :: b0 :: rest => simp [embedLoop, ih, writeBit_length]

lemma embedLoop_getD_div2 (w s : Nat) (ps : List Nat) :
    ∀ (bits data : List Nat) (o : Nat),
      (embedLoop w s ps bits data).getD o 0 / 2 = data.getD o 0 / 2 := by
  induction ps with
  | nil => intro bits data o; cases bits <;> rfl
  | cons p ps ih =>
    intro bits data o
    match bits with
    | [] => rfl
    | [b2] => simp only [embedLoop]; rw [writeBit_getD_div2]
    | [b2, b1] => simp only [embedLoop]; rw [writeBit_getD_div2, writeBit_getD_div2]
    | b2 :: b1 :: b0 :: rest =>
      simp only [embedLoop]
      rw [ih, writeBit_getD_div2, writeBit_getD_div2, writeBit_getD_div2]

lemma embedLoop_getD_untouched (w s : Nat) (ps : List Nat) :
    ∀ (bits data : List Nat) (o : Nat),
      (∀ p ∈ ps.take ((bits.length + 2) / 3), ∀ c, c < 3 → o ≠ p / w * s + p % w * 3 + c) →
      (embedLoop w s ps bits data).getD o 0 = data.getD o 0 := by
  induction ps with
  | nil => intro bits data o _; cases bits <;> rfl
  | cons p ps ih =>
    intro bits data o h
    match bits with
    | [] => rfl
    | [b2] =>
      have hp := h p (by simp)
      simp only [embedLoop]
      exact writeBit_getD_ne _ _ _ _ (hp 2 (by omega))
    | [b2, b1] =>
      have hp := h p (by simp)
      simp only [embedLoop]
      rw [writeBit_getD_ne _ _ _ _ (hp 1 (by omega)),
        writeBit_getD_ne _ _ _ _ (hp 2 (by omega))]
    | b2 :: b1 :: b0 :: rest =>
      have hlen : ((b2 :: b1 :: b0 :: rest).length + 2) / 3 = (rest.length + 2) / 3 + 1 := by
        simp only [List.length_cons]; omega
      rw [hlen, List.take_succ_cons] at h
      have hp := h p (List.mem_cons_self _ _)
      have hrest : ∀ q ∈ ps.take ((rest.length + 2) / 3), ∀ c, c < 3 →
          o ≠ q / w * s + q % w * 3 + c :=
        fun q hq => h q (List.mem_cons_of_mem _ hq)
      simp only [embedLoop]
      rw [ih rest _ o hrest,
        writeBit_getD_ne _ _ _ _ (hp 0 (by omega)),
        writeBit_getD_ne _ _ _ _ (hp 1 (by omega)),
        writeBit_getD_ne _ _ _ _ (hp 2 (by omega))]

lemma embed_bits_stride (img : BmpImage) (ps bits : List Nat) :
    (embed_bits img ps bits).stride = img.stride := rfl

lemma embed_bits_byteAt_div2 (img : BmpImage) (ps bits : List Nat) (o : Nat) :
    byteAt (embed_bits img ps bits) o / 2 = byteAt img o / 2 :=
  embedLoop_getD_div2 _ _ ps bits img.data o

lemma lumAt_embed (img : BmpImage) (ps bits : List Nat) (row col : Nat) :
    lumAt (embed_bits img ps bits) row col = lumAt img row col := by
  simp only [lumAt, embed_bits_stride, compute_luminance, embed_bits_byteAt_div2]

lemma compute_luminance_map_embed (img : BmpImage) (ps bits : List Nat) :
    compute_luminance_map (embed_bits img ps bits) = compute_luminance_map img := by
  have hlen : (embed_bits img ps bits).data.length = img.data.length :=
    embedLoop_length _ _ ps bits img.data
  have hdat : ((embed_bits img ps bits).data = []) ↔ (img.data = []) := by
    rw [← List.length_eq_zero, ← List.length_eq_zero, hlen]
  unfold compute_luminance_map
  by_cases hc : img.data = [] ∨ img.width ≤ 0 ∨ img.height = 0
  · rw [if_pos hc, if_pos]
    rcases hc with h | h
    · exact Or.inl (hdat.mpr h)
    · exact Or.inr h
  · rw [if_neg hc, if_neg]
    · refine congrArg some ?_
      refine List.map_congr_left fun i _ => ?_
      exact lumAt_embed img ps bits _ _
    · intro hc2
      apply hc
      rcases hc2 with h | h
      · exact Or.inl (hdat.mp h)
      · exact Or.inr h

/-! ## Helper lemmas about the Contrast Selector -/

lemma absHeight_pos (img : BmpImage) (h : img.height ≠ 0) : 0 < absHeight img := by
  unfold absHeight; split <;> omega

lemma find_some_data_ne (img : BmpImage) (bs : Int) (t : ℚ) (ps : List Nat)
    (h : find_low_contrast_positions img bs t = some ps) : img.data ≠ [] := by
  intro hd
  unfold find_low_contrast_positions at h
  rw [if_pos hd] at h
  exact Option.noConfusion h

lemma compute_luminance_map_valid (img : BmpImage) (hd : img.data ≠ [])
    (hw : 0 < img.width) (hh : img.height ≠ 0) :
    compute_luminance_map img =
      some ((List.range (img.width.toNat * (absHeight img).toNat)).map
        fun i => lumAt img (i / img.width.toNat) (i % img.width.toNat)) := by
  unfold compute_luminance_map
  rw [if_neg]
  push_neg
  exact ⟨hd, by omega, hh⟩

lemma getD_range_map (n : Nat) (f : Nat → ℚ) (i : Nat) (h : i < n) :
    ((List.range n).map f).getD i 0 = f i := by
  rw [List.getD_eq_getElem?_getD, List.getElem?_map, List.getElem?_range h]
  rfl

lemma flatMap_const_nil {α β : Type} (l : List α) :
    (l.flatMap fun _ => ([] : List β)) = [] := by
  induction l with
  | nil => rfl
  | cons x l ih => simp only [List.flatMap_cons, List.nil_append, ih]

lemma flatMap_congr_mem {α β : Type} (l : List α) (f g : α → List β)
    (h : ∀ x ∈ l, f x = g x) : l.flatMap f = l.flatMap g := by
  induction l with
  | nil => rfl
  | cons x l ih =>
    simp only [List.flatMap_cons]
    rw [h x (List.mem_cons_self _ _), ih (fun y hy => h y (List.mem_cons_of_mem _ hy))]

lemma specWindow_length (w k br bc : Nat) : (specWindow w k br bc).length = k * k := by
  have aux : ∀ (rows : List Nat), (rows.flatMap fun r =>
      (List.range k).map fun c => (br + r) * w + (bc + c)).length = rows.length * k := by
    intro rows
    induction rows with
    | nil => simp
    | cons x rows ih =>
      simp only [List.flatMap_cons, List.length_append, List.length_map,
        List.length_range, ih, List.length_cons]
      ring
  rw [specWindow, aux, List.length_range]

lemma specWindow_mem_lt (w H k br bc : Nat) (hbr : br + k ≤ H) (hbc : bc + k ≤ w)
    (i : Nat) (hi : i ∈ specWindow w k br bc) : i < w * H := by
  simp only [specWindow, List.mem_flatMap, List.mem_map, List.mem_range] at hi
  obtain ⟨r, hr, c, hc, rfl⟩ := hi
  have h1 : br + r + 1 ≤ H := by omega
  calc (br + r) * w + (bc + c) < (br + r) * w + w := by omega
    _ = (br + r + 1) * w := by ring
    _ ≤ H * w := Nat.mul_le_mul_right w h1
    _ = w * H := Nat.mul_comm _ _

lemma innerPairFold (lum : List ℚ) (wn bc q : Nat) :
    ∀ (l : List Nat) (a : ℚ) (n : Nat),
      l.foldl (fun acc2 c => (acc2.1 + lum.getD (q * wn + (bc + c)) 0, acc2.2 + 1)) (a, n)
      = (a + (l.map fun c => lum.getD (q * wn + (bc + c)) 0).sum, n + l.length) := by
  intro l
  induction l with
  | nil => intro a n; simp
  | cons x l ih =>
    intro a n
    rw [List.foldl_cons, ih]
    simp only [List.map_cons, List.sum_cons, List.length_cons, Prod.mk.injEq]
    constructor
    · ring
    · omega

lemma innerSqFold (lum : List ℚ) (m : ℚ) (wn bc q : Nat) :
    ∀ (l : List Nat) (a : ℚ),
      l.foldl (fun acc2 c => acc2 +
          (lum.getD (q * wn + (bc + c)) 0 - m) *
          (lum.getD (q * wn + (bc + c)) 0 - m)) a
      = a + (l.map fun c =>
          (lum.getD (q * wn + (bc + c)) 0 - m) *
          (lum.getD (q * wn + (bc + c)) 0 - m)).sum := by
  intro l
  induction l with
  | nil => intro a; simp
  | cons x l ih =>
    intro a
    rw [List.foldl_cons, ih]
    simp only [List.map_cons, List.sum_cons]
    ring

lemma windowPairFoldAux (lum : List ℚ) (wn k bc br : Nat) :
    ∀ (rows : List Nat) (a : ℚ) (n : Nat),
      rows.foldl (fun acc r => (List.range k).foldl
          (fun acc2 c => (acc2.1 + lum.getD ((br + r) * wn + (bc + c)) 0, acc2.2 + 1)) acc) (a, n)
      = (a + ((rows.flatMap fun r => (List.range k).map fun c => (br + r) * wn + (bc + c)).map
            fun i => lum.getD i 0).sum,
         n + rows.length * k) := by
  intro rows
  induction rows with
  | nil => intro a n; simp
  | cons x rows ih =>
    intro a n
    rw [List.foldl_cons, innerPairFold lum wn bc (br + x) (List.range k) a n, ih]
    simp only [List.flatMap_cons, List.map_append, List.sum_append, List.map_map,
      List.length_range, List.length_cons, Prod.mk.injEq, Function.comp_def]
    constructor
    · ring
    · ring

lemma windowSqFoldAux (lum : List ℚ) (m : ℚ) (wn k bc br : Nat) :
    ∀ (rows : List Nat) (a : ℚ),
      rows.foldl (fun acc r => (List.range k).foldl
          (fun acc2 c => acc2 +
            (lum.getD ((br + r) * wn + (bc + c)) 0 - m) *
            (lum.getD ((br + r) * wn + (bc + c)) 0 - m)) acc) a
      = a + ((rows.flatMap fun r => (List.range k).map fun c => (br + r) * wn + (bc + c)).map
            fun i => (lum.getD i 0 - m) * (lum.getD i 0 - m)).sum := by
  intro rows
  induction rows with
  | nil => intro a; simp
  | cons x rows ih =>
    intro a
    rw [List.foldl_cons, innerSqFold lum m wn bc (br + x) (List.range k) a, ih]
    simp only [List.flatMap_cons, List.map_append, List.sum_append, List.map_map,
      Function.comp_def]
    ring

lemma windowPairFold (lum : List ℚ) (wn k br bc : Nat) :
    (List.range k).foldl (fun acc r => (List.range k).foldl
        (fun acc2 c => (acc2.1 + lum.getD ((br + r) * wn + (bc + c)) 0, acc2.2 + 1)) acc)
      ((0 : ℚ), (0 : Nat))
    = (((specWindow wn k br bc).map fun i => lum.getD i 0).sum, k * k) := by
  rw [windowPairFoldAux lum wn k bc br (List.range k) 0 0, List.length_range]
  rw [specWindow]
  simp

lemma windowSqFold (lum : List ℚ) (m : ℚ) (wn k br bc : Nat) :
    (List.range k).foldl (fun acc r => (List.range k).foldl
        (fun acc2 c => acc2 +
          (lum.getD ((br + r) * wn + (bc + c)) 0 - m) *
          (lum.getD ((br + r) * wn + (bc + c)) 0 - m)) acc) (0 : ℚ)
    = ((specWindow wn k br bc).map fun i => (lum.getD i 0 - m) * (lum.getD i 0 - m)).sum := by
  rw [windowSqFoldAux lum m wn k bc br (List.range k) 0, specWindow]
  simp

lemma find_eq_spec (img : BmpImage) (bs : Int) (t : ℚ)
    (hd : img.data ≠ []) (hw : 0 < img.width) (hh : img.height ≠ 0) (hb : 0 < bs) :
    find_low_contrast_positions img bs t = some (specSelector img bs.toNat t) := by
  have hah := absHeight_pos img hh
  unfold find_low_contrast_positions specSelector
  rw [if_neg hd, if_neg (by omega : ¬ bs ≤ 0)]
  dsimp only
  rw [if_neg (by omega : ¬ (img.width ≤ 0 ∨ absHeight img ≤ 0))]
  rw [compute_luminance_map_valid img hd hw hh]
  dsimp only
  by_cases hbig : img.width < bs ∨ absHeight img < bs
  · have hspec : img.width.toNat < bs.toNat ∨ (absHeight img).toNat < bs.toNat := by omega
    rw [if_pos hspec]
    by_cases hneg : absHeight img - bs + 1 < 0 ∨ img.width - bs + 1 < 0
    · rw [if_pos hneg]
    · rw [if_neg hneg]
      refine congrArg some ?_
      rcases hbig with hbg | hbg
      · have h0 : (img.width - bs + 1).toNat = 0 := by omega
        rw [h0]
        simp only [List.range_zero, List.flatMap_nil, flatMap_const_nil]
      · have h0 : (absHeight img - bs + 1).toNat = 0 := by omega
        rw [h0]
        simp only [List.range_zero, List.flatMap_nil]
  · push_neg at hbig
    obtain ⟨hbw, hbh⟩ := hbig
    rw [if_neg (by omega : ¬ (absHeight img - bs + 1 < 0 ∨ img.width - bs + 1 < 0)),
      if_neg (by omega : ¬ (img.width.toNat < bs.toNat ∨ (absHeight img).toNat < bs.toNat))]
    refine congrArg some ?_
    have hrow : (absHeight img - bs + 1).toNat = (absHeight img).toNat - bs.toNat + 1 := by
      omega
    have hcol : (img.width - bs + 1).toNat = img.width.toNat - bs.toNat + 1 := by omega
    rw [hrow, hcol]
    apply flatMap_congr_mem
    intro br hbr
    apply flatMap_congr_mem
    intro bc hbc
    rw [List.mem_range] at hbr hbc
    rw [windowPairFold]
    dsimp only
    have hkk : ¬ (bs.toNat * bs.toNat = 0) := by
      have : bs.toNat ≠ 0 := by omega
      exact Nat.mul_ne_zero this this
    rw [if_neg hkk, windowSqFold]
    have hmem : ∀ i ∈ specWindow img.width.toNat bs.toNat br bc,
        i < img.width.toNat * (absHeight img).toNat :=
      specWindow_mem_lt _ _ _ _ _ (by omega) (by omega)
    have hlums : (specWindow img.width.toNat bs.toNat br bc).map
          (fun i => lumAt img (i / img.width.toNat) (i % img.width.toNat))
        = (specWindow img.width.toNat bs.toNat br bc).map fun i =>
            ((List.range (img.width.toNat * (absHeight img).toNat)).map
              fun j => lumAt img (j / img.width.toNat) (j % img.width.toNat)).getD i 0 :=
      List.map_congr_left fun i hi => (getD_range_map _
        (fun j => lumAt img (j / img.width.toNat) (j % img.width.toNat)) i (hmem i hi)).symm
    have hpv : popVariance ((specWindow img.width.toNat bs.toNat br bc).map
          fun i => lumAt img (i / img.width.toNat) (i % img.width.toNat))
        = ((specWindow img.width.toNat bs.toNat br bc).map fun i =>
            (((List.range (img.width.toNat * (absHeight img).toNat)).map
                fun j => lumAt img (j / img.width.toNat) (j % img.width.toNat)).getD i 0 -
              ((specWindow img.width.toNat bs.toNat br bc).map fun i =>
                ((List.range (img.width.toNat * (absHeight img).toNat)).map
                  fun j => lumAt img (j / img.width.toNat) (j % img.width.toNat)).getD i 0).sum /
                ((bs.toNat * bs.toNat : Nat) : ℚ)) *
            (((List.range (img.width.toNat * (absHeight img).toNat)).map
                fun j => lumAt img (j / img.width.toNat) (j % img.width.toNat)).getD i 0 -
              ((specWindow img.width.toNat bs.toNat br bc).map fun i =>
                ((List.range (img.width.toNat * (absHeight img).toNat)).map
                  fun j => lumAt img (j / img.width.toNat) (j % img.width.toNat)).getD i 0).sum /
                ((bs.toNat * bs.toNat : Nat) : ℚ))).sum /
          ((bs.toNat * bs.toNat : Nat) : ℚ) := by
      rw [popVariance, hlums]
      rw [List.length_map, specWindow_length]
      rw [List.map_map]
      refine congrArg (fun z => z / ((bs.toNat * bs.toNat : Nat) : ℚ)) ?_
      refine congrArg List.sum ?_
      refine List.map_congr_left fun i _ => ?_
      simp only [Function.comp_def]
      ring
    rw [hpv]
    rfl

/-! ## Claim theorems -/

/-- C1: the round-trip property fails on the code.  On the 4×4 uniform image
with window size 2 and threshold 1 the capacity is 108 bits, which exceeds
the `(4+8)*8 = 96` bits required for an 8-byte message, and encoding
succeeds (return code 0) — yet decoding the encoded image returns an error
instead of the original message: overlapping windows place duplicate pixel
indices in the Position List, later embedded bits overwrite earlier ones at
the duplicated channel bytes, and the length header read back at decode time
is corrupted. -/
theorem roundtrip_fails_on_duplicates :
    (find_low_contrast_positions u4 2 1).map (fun l => l.length * 3) = some 108 ∧
    96 ≤ 108 ∧
    (steg_encode_message u4 (some msg8) 8 2 1).1 = 0 ∧
    steg_decode_message (steg_encode_message u4 (some msg8) 8 2 1).2 2 1 = none := by
  decide!

/-- C2: whenever the Position List is produced and `capacity_bits`
(`3 × |Position List|`) is below `(4 + message_length) × 8`,
`steg_encode_message` returns the distinguished value `-1` with the pixel
grid untouched; conversely `-1` is returned only in that situation, so it is
distinct from the return value of every other failure. -/
theorem encode_capacity_insufficient :
    (∀ (img : BmpImage) (msg : Option (List Nat)) (len : Nat) (bs : Int) (t : ℚ)
        (ps : List Nat), (msg = none → len = 0) →
        find_low_contrast_positions img bs t = some ps →
        ps.length * 3 < (4 + len) * 8 →
        steg_encode_message img msg len bs t = (-1, img)) ∧
    (∀ (img : BmpImage) (msg : Option (List Nat)) (len : Nat) (bs : Int) (t : ℚ),
        (steg_encode_message img msg len bs t).1 = -1 →
        ∃ ps, find_low_contrast_positions img bs t = some ps ∧
          ps.length * 3 < (4 + len) * 8) := by
  constructor
  · intro img msg len bs t ps hmsg hfind hcap
    have hd := find_some_data_ne img bs t ps hfind
    unfold steg_encode_message
    rw [if_neg hd, if_neg (by rintro ⟨h1, h2⟩; have := hmsg h1; omega), hfind]
    dsimp only
    rw [if_pos hcap]
  · intro img msg len bs t h
    by_cases hd : img.data = []
    · rw [steg_encode_message, if_pos hd] at h
      simp at h
    · by_cases hm : msg = none ∧ 0 < len
      · rw [steg_encode_message, if_neg hd, if_pos hm] at h
        simp at h
      · rw [steg_encode_message, if_neg hd, if_neg hm] at h
        rcases hfind : find_low_contrast_positions img bs t with _ | ps
        · rw [hfind] at h
          simp at h
        · rw [hfind] at h
          dsimp only at h
          by_cases hcap : ps.length * 3 < (4 + len) * 8
          · exact ⟨ps, rfl, hcap⟩
          · rw [if_neg hcap] at h
            simp at h

/-- C2 witness: on the 4×4 uniform image (capacity 108 bits) a 50-byte
message needs 432 bits, so encode returns `-1` and the image is unchanged. -/
theorem encode_capacity_insufficient_witness :
    steg_encode_message u4 (some (List.replicate 50 7)) 50 2 1 = (-1, u4) :=
  encode_capacity_insufficient.1 u4 (some (List.replicate 50 7)) 50 2 1 u4Positions
    (by intro h; exact Option.noConfusion h) (by decide!) (by decide)

/-- C3 counterexample: on the 4×4 uniform image with window 2 and
threshold 1 the capacity is `36 × 3 = 108` bits — the Position List has 36
entries because each of the nine overlapping windows contributes its four
pixels — not the `4 × 4 × 3 = 48` bits the claim computes. -/
theorem scenarioB_capacity_counterexample :
    (find_low_contrast_positions u4 2 1).map (fun l => l.length * 3) = some 108 ∧
    (find_low_contrast_positions u4 2 1).map (fun l => l.length * 3) ≠ some 48 := by
  decide!

/-- C3 amended: the capacity of the 4×4 uniform image at window 2,
threshold 1 is 108 bits (36 listed positions × 3, duplicates counted); this
is still far below the 832 bits a 100-byte message requires, so
`steg_encode_message` returns the CapacityError signal `-1` and leaves the
pixel grid unchanged. -/
theorem scenarioB_amended :
    (find_low_contrast_positions u4 2 1).map (fun l => l.length * 3) = some 108 ∧
    steg_encode_message u4 (some (List.replicate 100 65)) 100 2 1 = (-1, u4) := by
  decide!

/-- C4: the Position List is not duplicate-free: on the 4×4 uniform image
with window 2 and threshold 1, pixel index 1 is covered by two overlapping
qualifying windows and is appended twice. -/
theorem positions_not_duplicate_free :
    2 ≤ ((find_low_contrast_positions u4 2 1).getD []).count 1 ∧
    ¬ ((find_low_contrast_positions u4 2 1).getD []).Nodup := by
  decide!

/-- C5: the Contrast Selector is deterministic: two calls on the same pixel
grid, window size and threshold yield Position Lists of the same length with
the same pixel index at every list position. -/
theorem selector_deterministic (img : BmpImage) (bs : Int) (t : ℚ)
    (l1 l2 : List Nat)
    (h1 : find_low_contrast_positions img bs t = some l1)
    (h2 : find_low_contrast_positions img bs t = some l2) :
    l1.length = l2.length ∧ ∀ i, l1.getD i 0 = l2.getD i 0 := by
  cases Option.some.inj (h1.symm.trans h2)
  exact ⟨rfl, fun i => rfl⟩

/-- C5 witness: the two (definitionally independent) calls on `u4` agree. -/
theorem selector_deterministic_witness :
    u4Positions.length = u4Positions.length ∧
    ∀ i, u4Positions.getD i 0 = u4Positions.getD i 0 :=
  selector_deterministic u4 2 1 u4Positions u4Positions (by decide!) (by decide!)

/-- C6: for every valid pixel grid, positive window size and threshold, the
code's selector agrees with the spec's wording: visit every valid top-left
offset in row-major order, compute each window's mean and population
standard deviation (sum of squared deviations over `n = k²`), and append
every pixel of a window, in row-major order within the window, exactly when
that standard deviation is strictly below the threshold. -/
theorem selector_matches_spec (img : BmpImage) (bs : Int) (t : ℚ)
    (hd : img.data ≠ []) (hw : 0 < img.width) (hh : img.height ≠ 0)
    (hb : 0 < bs) :
    find_low_contrast_positions img bs t = some (specSelector img bs.toNat t) :=
  find_eq_spec img bs t hd hw hh hb

/-- C6 witness: the agreement evaluated on the 4×4 uniform image. -/
theorem selector_matches_spec_witness :
    find_low_contrast_positions u4 2 1 = some (specSelector u4 2 1) :=
  selector_matches_spec u4 2 1 (by decide) (by decide) (by decide) (by decide)

/-- C7: for a valid pixel grid and a positive window size exceeding the
image width or height, the selector returns success with an empty Position
List (zero capacity), not an error. -/
theorem selector_empty_when_window_exceeds (img : BmpImage) (bs : Int) (t : ℚ)
    (hd : img.data ≠ []) (hw : 0 < img.width) (hh : img.height ≠ 0)
    (hb : 0 < bs) (hbig : img.width < bs ∨ absHeight img < bs) :
    find_low_contrast_positions img bs t = some [] := by
  rw [find_eq_spec img bs t hd hw hh hb]
  refine congrArg some ?_
  rw [specSelector]
  dsimp only
  rw [if_pos (by omega : img.width.toNat < bs.toNat ∨ (absHeight img).toNat < bs.toNat)]

/-- C7 witness: window size 5 on the 4×4 image yields success with an empty
list. -/
theorem selector_empty_when_window_exceeds_witness :
    find_low_contrast_positions u4 5 1 = some [] :=
  selector_empty_when_window_exceeds u4 5 1 (by decide) (by decide) (by decide)
    (by decide) (by decide)

/-- C8: if encoding succeeds, the Luminance Grid of the mutated pixel grid
equals the Luminance Grid of the original grid value for value: luminance is
computed from channel bytes with the lowest bit cleared and embedding only
ever changes that bit. -/
theorem luminance_stable (img : BmpImage) (msg : Option (List Nat)) (len : Nat)
    (bs : Int) (t : ℚ)
    (_h : (steg_encode_message img msg len bs t).1 = 0) :
    compute_luminance_map (steg_encode_message img msg len bs t).2 =
      compute_luminance_map img := by
  unfold steg_encode_message
  split
  · rfl
  · split
    · rfl
    · split
      · rfl
      · dsimp only
        split
        · rfl
        · exact compute_luminance_map_embed img _ _

/-- C8 witness: the successful encode of `msg8` into `u4` leaves the
Luminance Grid unchanged. -/
theorem luminance_stable_witness :
    compute_luminance_map (steg_encode_message u4 (some msg8) 8 2 1).2 =
      compute_luminance_map u4 :=
  luminance_stable u4 (some msg8) 8 2 1 (by decide!)

/-- C9: embedding mutates only the three channel bytes of pixels named in
the prefix of the Position List reached before the bitstream runs out, and
within a mutated byte only the least significant bit: any offset outside
those channel bytes (padding bytes, unlisted pixels) is unchanged, and every
byte's upper bits (`value / 2`) are unchanged. -/
theorem embed_bits_frame (img : BmpImage) (positions bits : List Nat) :
    (∀ o, (∀ p ∈ positions.take ((bits.length + 2) / 3), ∀ c, c < 3 →
        o ≠ pixelBase img p + c) →
      byteAt (embed_bits img positions bits) o = byteAt img o) ∧
    (∀ o, byteAt (embed_bits img positions bits) o / 2 = byteAt img o / 2) := by
  constructor
  · intro o ho
    exact embedLoop_getD_untouched _ _ positions bits img.data o ho
  · intro o
    exact embed_bits_byteAt_div2 img positions bits o

/-- C9 witness: embedding two bits into pixel 0 of `padImg` leaves the
padding byte at offset 3 unchanged, and the upper bits of the red channel
byte at offset 2 unchanged. -/
theorem embed_bits_frame_witness :
    byteAt (embed_bits padImg [0] [1, 1]) 3 = byteAt padImg 3 ∧
    byteAt (embed_bits padImg [0] [1, 1]) 2 / 2 = byteAt padImg 2 / 2 :=
  ⟨(embed_bits_frame padImg [0] [1, 1]).1 3 (by decide),
   (embed_bits_frame padImg [0] [1, 1]).2 2⟩

/-- C10: a `NULL` message pointer with a positive length makes
`steg_encode_message` return the generic error 1 — nonzero and distinct from
the CapacityError signal `-1` — with the pixel grid unmodified. -/
theorem encode_null_message (img : BmpImage) (len : Nat) (bs : Int) (t : ℚ)
    (h : 0 < len) :
    steg_encode_message img none len bs t = (1, img) ∧
    (1 : Int) ≠ -1 ∧ (1 : Int) ≠ 0 := by
  refine ⟨?_, by decide, by decide⟩
  unfold steg_encode_message
  by_cases hd : img.data = []
  · rw [if_pos hd]
  · rw [if_neg hd, if_pos ⟨rfl, h⟩]

/-- C10 witness: a `NULL` message of declared length 5 on the 4×4 image. -/
theorem encode_null_message_witness :
    steg_encode_message u4 none 5 2 1 = (1, u4) ∧
    (1 : Int) ≠ -1 ∧ (1 : Int) ≠ 0 :=
  encode_null_message u4 5 2 1 (by decide)
